import Mathlib

/-!
Verification of the filesystem MCP server (src/filesystem-mcp-server.py).

The embedding models the request handlers of the server as pure Lean
functions.  Filesystem state is passed explicitly: a lookup function
maps a canonical path string to the node stored there (`none` means the
path does not exist), and a node is either a regular file with its byte
content and mtime, or a directory with its mtime and named children.
HTTP failures (raised as HTTPException in the source) become the error
branch of `Except`.
-/

/-- Model of fastapi.HTTPException: a status code and a detail message. -/
structure HTTPException where
  status_code : Nat
  detail : String
deriving DecidableEq

/-- Model of the pydantic FileInfo record produced by the list endpoint. -/
structure FileInfo where
  name : String
  path : String
  is_dir : Bool
  size : Option Nat
  modified : Option Nat
deriving DecidableEq

/-- Model of the pydantic FileListResponse record. -/
structure FileListResponse where
  files : List FileInfo
deriving DecidableEq

/-- Model of the pydantic FileContentResponse record. -/
structure FileContentResponse where
  content : String
  encoding : String
deriving DecidableEq

/-- A filesystem node: a regular file (byte content, mtime) or a
directory (mtime, named children). Bytes are Nats below 256. -/
inductive FSNode where
  | file (content : List Nat) (mtime : Nat)
  | dir (mtime : Nat) (entries : List (String × FSNode))

/-- os.path.isdir on an existing node. -/
def FSNode.isDir : FSNode → Bool
  | .dir _ _ => true
  | .file _ _ => false

/-- stat.st_mtime of a node. -/
def FSNode.mtime : FSNode → Nat
  | .dir m _ => m
  | .file _ m => m

/-! ## Path canonicalization (os.path.abspath)

os.path.abspath(p) is normpath(join(cwd, p)) on POSIX: prepend the
current working directory when the path is relative, then normalize
away empty, "." and ".." segments.  The working directory is threaded
explicitly as an absolute path with no trailing slash. -/

/-- Split a string into segments at each slash character. -/
def splitSegsChars (acc : List Char) : List Char → List String
  | [] => [String.mk acc.reverse]
  | ch :: rest =>
    if ch = '/' then String.mk acc.reverse :: splitSegsChars [] rest
    else splitSegsChars (ch :: acc) rest

/-- Segments of a path string. -/
def splitSegs (s : String) : List String := splitSegsChars [] s.toList

/-- Normalize the segments of an absolute path: drop empty and "."
segments, let ".." pop the previous segment (at the root ".." stays at
the root). The accumulator holds the kept segments reversed. -/
def normSegs (acc : List String) : List String → List String
  | [] => acc.reverse
  | seg :: rest =>
    if seg = "" ∨ seg = "." then normSegs acc rest
    else if seg = ".." then
      match acc with
      | [] => normSegs [] rest
      | _ :: acc' => normSegs acc' rest
    else normSegs (seg :: acc) rest

/-- Join segments with slashes. -/
def joinSegs : List String → String
  | [] => ""
  | [s] => s
  | s :: rest => s ++ "/" ++ joinSegs rest

/-- normpath of an absolute path string. -/
def normpathAbs (s : String) : String :=
  "/" ++ joinSegs (normSegs [] (splitSegs s))

/-- Python str.startswith: s starts with pre as a raw character prefix. -/
def startswith (s pre : String) : Bool := pre.toList.isPrefixOf s.toList

/-- os.path.abspath with an explicit current working directory. -/
def abspath (cwd p : String) : String :=
  normpathAbs (if startswith p "/" then p else cwd ++ "/" ++ p)

/-! ## safe_path (source lines 63-78)

The source computes abs_path = os.path.abspath(path); when MCP_BASE_PATH
is truthy (set and non-empty) it requires
abs_path.startswith(os.path.abspath(MCP_BASE_PATH)) and raises
HTTPException(403) otherwise. -/

/-- safe_path from the source, with the MCP_BASE_PATH configuration and
the working directory passed explicitly. -/
def safe_path (basePath : Option String) (cwd : String) (path : String) :
    Except HTTPException String :=
  let abs_path := abspath cwd path
  match basePath with
  | none => .ok abs_path
  | some bp =>
    if bp = "" then .ok abs_path
    else
      let base_path := abspath cwd bp
      if startswith abs_path base_path then .ok abs_path
      else .error ⟨403, "Access to paths outside of " ++ bp ++ " is not allowed"⟩

/-! ## get_api_key (source lines 26-37)

`if not MCP_API_KEY: return None` skips authentication when the key is
unset or empty; otherwise the request is allowed exactly when the header
is truthy and equal to the key. -/

/-- Python truthiness of an optional string: None and "" are falsy. -/
def pyTruthy : Option String → Bool
  | none => false
  | some s => !s.isEmpty

/-- get_api_key from the source: mcpApiKey is the MCP_API_KEY
environment value, api_key the X-MCP-API-Key header value. -/
def get_api_key (mcpApiKey api_key : Option String) :
    Except HTTPException (Option String) :=
  if !pyTruthy mcpApiKey then .ok none
  else if pyTruthy api_key ∧ api_key = mcpApiKey then .ok api_key
  else .error ⟨403, "Invalid API key"⟩

/-- Decidable equality for Except results, used to evaluate the model
on concrete inputs. -/
instance {ε α : Type} [DecidableEq ε] [DecidableEq α] : DecidableEq (Except ε α) :=
  fun a b =>
    match a, b with
    | .ok x, .ok y =>
      if h : x = y then .isTrue (by rw [h]) else .isFalse (by intro hc; cases hc; exact h rfl)
    | .error x, .error y =>
      if h : x = y then .isTrue (by rw [h]) else .isFalse (by intro hc; cases hc; exact h rfl)
    | .ok _, .error _ => .isFalse (by intro hc; cases hc)
    | .error _, .ok _ => .isFalse (by intro hc; cases hc)

/-! ## base64 (Python base64.b64encode / b64decode)

read_file answers binary content with
base64.b64encode(binary_content).decode("ascii").  The encoder maps
each 3-byte group to 4 alphabet characters, padding the final partial
group with "=" characters. -/

/-- The standard base64 alphabet. -/
def b64Alphabet : List Char :=
  "ABCDEFGHIJKLMNOPQRSTUVWXYZabcdefghijklmnopqrstuvwxyz0123456789+/".toList

/-- The alphabet character for a 6-bit value. -/
def b64Char (n : Nat) : Char := b64Alphabet.getD n 'A'

/-- The 6-bit value of an alphabet character, none for characters
outside the alphabet (in particular for the pad character). -/
def b64Value (c : Char) : Option Nat :=
  let i := b64Alphabet.indexOf c
  if i < 64 then some i else none

/-- base64.b64encode on a byte list, as characters. -/
def b64encodeChars : List Nat → List Char
  | [] => []
  | [a] => [b64Char (a / 4), b64Char (a % 4 * 16), '=', '=']
  | [a, b] => [b64Char (a / 4), b64Char (a % 4 * 16 + b / 16), b64Char (b % 16 * 4), '=']
  | a :: b :: c :: rest =>
    b64Char (a / 4) :: b64Char (a % 4 * 16 + b / 16) :: b64Char (b % 16 * 4 + c / 64) ::
      b64Char (c % 64) :: b64encodeChars rest

/-- base64.b64encode(bytes).decode("ascii"). -/
def b64encode (bs : List Nat) : String := String.mk (b64encodeChars bs)

/-- base64.b64decode on characters: inverse of the encoder, failing on
malformed input. -/
def b64decodeChars : List Char → Option (List Nat)
  | [] => some []
  | c1 :: c2 :: c3 :: c4 :: rest => do
    let v1 ← b64Value c1
    let v2 ← b64Value c2
    if c3 = '=' then
      if c4 = '=' ∧ rest = [] then pure [v1 * 4 + v2 / 16] else none
    else do
      let v3 ← b64Value c3
      if c4 = '=' then
        if rest = [] then pure [v1 * 4 + v2 / 16, v2 % 16 * 16 + v3 / 4] else none
      else do
        let v4 ← b64Value c4
        let tail ← b64decodeChars rest
        pure ((v1 * 4 + v2 / 16) :: (v2 % 16 * 16 + v3 / 4) :: (v3 % 4 * 64 + v4) :: tail)
  | _ => none

/-- base64.b64decode on a string. -/
def b64decodeStr (s : String) : Option (List Nat) := b64decodeChars s.toList

example : b64encode [0xFF, 0x00, 0x10] = "/wAQ" := by decide
example : b64decodeStr "/wAQ" = some [0xFF, 0x00, 0x10] := by decide
example : b64encode [104, 105] = "aGk=" := by decide
example : b64decodeStr "aGk=" = some [104, 105] := by decide

/-! ## Character decoding (Python codecs, used by open(..., encoding=..))

The source opens the file in text mode with the requested encoding;
a UnicodeDecodeError from decoding triggers the base64 fallback, while
any other exception (for instance the LookupError raised for an unknown
encoding name) escapes to the outer handler and becomes a 500.  The
codec registry is an external collaborator, modelled as a function from
encoding name and bytes to text or one of these two errors; `utf8Codec`
below instantiates it with a strict UTF-8 decoder for concrete runs. -/

/-- The two decoding failures distinguished by the source: invalid
bytes (UnicodeDecodeError, caught) and an unknown encoding name
(LookupError, uncaught). -/
inductive DecodeErr where
  | unicodeDecodeError
  | lookupError
deriving DecidableEq

/-- Whether a byte is a UTF-8 continuation byte (0x80..0xBF). -/
def utf8Cont (b : Nat) : Bool := 0x80 ≤ b ∧ b < 0xC0

/-- Strict UTF-8 decoding of a byte list, rejecting truncated
sequences, stray continuation bytes, overlong forms, surrogates and
code points above 0x10FFFF. -/
def utf8Chars : List Nat → Option (List Char)
  | [] => some []
  | b :: rest =>
    if b < 0x80 then do
      let cs ← utf8Chars rest
      pure (Char.ofNat b :: cs)
    else if b < 0xC2 then none
    else if b < 0xE0 then
      match rest with
      | b1 :: rest' =>
        if utf8Cont b1 then do
          let cs ← utf8Chars rest'
          pure (Char.ofNat ((b - 0xC0) * 0x40 + (b1 - 0x80)) :: cs)
        else none
      | _ => none
    else if b < 0xF0 then
      match rest with
      | b1 :: b2 :: rest' =>
        if utf8Cont b1 ∧ utf8Cont b2 then
          let cp := (b - 0xE0) * 0x1000 + (b1 - 0x80) * 0x40 + (b2 - 0x80)
          if cp < 0x800 ∨ (0xD800 ≤ cp ∧ cp < 0xE000) then none
          else do
            let cs ← utf8Chars rest'
            pure (Char.ofNat cp :: cs)
        else none
      | _ => none
    else if b < 0xF5 then
      match rest with
      | b1 :: b2 :: b3 :: rest' =>
        if utf8Cont b1 ∧ utf8Cont b2 ∧ utf8Cont b3 then
          let cp := (b - 0xF0) * 0x40000 + (b1 - 0x80) * 0x1000 + (b2 - 0x80) * 0x40 + (b3 - 0x80)
          if cp < 0x10000 ∨ 0x10FFFF < cp then none
          else do
            let cs ← utf8Chars rest'
            pure (Char.ofNat cp :: cs)
        else none
      | _ => none
    else none

/-- A concrete codec registry knowing only the "utf-8" encoding. -/
def utf8Codec (encoding : String) (bytes : List Nat) : Except DecodeErr String :=
  if encoding = "utf-8" then
    match utf8Chars bytes with
    | some cs => .ok (String.mk cs)
    | none => .error .unicodeDecodeError
  else .error .lookupError

example : utf8Codec "utf-8" [104, 101, 108, 108, 111, 10] = .ok "hello\n" := by decide
example : utf8Codec "utf-8" [0xFF, 0x00, 0x10] = .error .unicodeDecodeError := by decide
example : utf8Codec "bogus" [104] = .error .lookupError := by decide
example : utf8Codec "utf-8" [0xE3, 0x81, 0x82] = .ok "あ" := by decide

/-! ## The list endpoint (source lines 86-138)

os.walk(path) performs a top-down depth-first walk: it yields the
triple for the directory itself, then recursively the triples of each
subdirectory in enumeration order.  For every triple the handler first
appends a FileInfo per subdirectory name (is_dir=True, size=None) and
then one per file name (is_dir=False, size=st_size).  `walkChildren`
recurses into every child; on a file child os.walk yields nothing, and
correspondingly `list_files_rec` of a file node is empty. -/

/-- os.path.join(root, name) for a name without a leading slash. -/
def pathJoin (root name : String) : String := root ++ "/" ++ name

/-- The FileInfo records appended for the dirs component of one os.walk
triple: one per directory child, in order. -/
def walkDirInfos (p : String) (entries : List (String × FSNode)) : List FileInfo :=
  entries.filterMap fun e =>
    match e.2 with
    | .dir m _ => some ⟨e.1, pathJoin p e.1, true, none, some m⟩
    | .file _ _ => none

/-- The FileInfo records appended for the filenames component of one
os.walk triple: one per file child, in order. -/
def walkFileInfos (p : String) (entries : List (String × FSNode)) : List FileInfo :=
  entries.filterMap fun e =>
    match e.2 with
    | .file bs m => some ⟨e.1, pathJoin p e.1, false, some bs.length, some m⟩
    | .dir _ _ => none

mutual

/-- The recursive branch of list_files: all records the handler
appends while iterating os.walk(p) over the subtree at node t. -/
def list_files_rec (p : String) : FSNode → List FileInfo
  | .file _ _ => []
  | .dir _ entries =>
    walkDirInfos p entries ++ walkFileInfos p entries ++ walkChildren p entries

/-- Records contributed by the recursive os.walk visits of the
children, in enumeration order. -/
def walkChildren (p : String) : List (String × FSNode) → List FileInfo
  | [] => []
  | (n, c) :: rest => list_files_rec (pathJoin p n) c ++ walkChildren p rest

end

/-- The non-recursive branch of list_files: os.listdir plus a stat per
direct child. -/
def list_files_nonrec (p : String) (entries : List (String × FSNode)) : List FileInfo :=
  entries.map fun e =>
    ⟨e.1, pathJoin p e.1, e.2.isDir,
      match e.2 with
      | .dir _ _ => none
      | .file bs _ => some bs.length,
      some e.2.mtime⟩

/-- The list_files handler: safe_path, existence check, then the
recursive walk or the direct listing.  A non-recursive list of a
regular file makes os.listdir raise NotADirectoryError, which the
outer handler turns into a 500. -/
def list_files (basePath : Option String) (cwd : String)
    (lookup : String → Option FSNode) (reqPath : String) (recursive : Bool) :
    Except HTTPException FileListResponse :=
  match safe_path basePath cwd reqPath with
  | .error e => .error e
  | .ok path =>
    match lookup path with
    | none => .error ⟨404, "Path not found"⟩
    | some t =>
      if recursive then .ok ⟨list_files_rec path t⟩
      else
        match t with
        | .dir _ entries => .ok ⟨list_files_nonrec path entries⟩
        | .file _ _ => .error ⟨500, "Not a directory"⟩

/-! ## The read endpoint (source lines 141-168) -/

/-- request.encoding or "utf-8": Python `or` takes the default when the
field is absent or the empty string. -/
def effEncoding : Option String → String
  | none => "utf-8"
  | some s => if s.isEmpty then "utf-8" else s

/-- The read_file handler: safe_path, existence and directory checks,
then text decoding with the base64 fallback on UnicodeDecodeError.  An
unknown encoding name raises LookupError, which only the outer handler
catches, producing a 500. -/
def read_file (codec : String → List Nat → Except DecodeErr String)
    (basePath : Option String) (cwd : String)
    (lookup : String → Option FSNode) (reqPath : String)
    (reqEncoding : Option String) : Except HTTPException FileContentResponse :=
  match safe_path basePath cwd reqPath with
  | .error e => .error e
  | .ok path =>
    match lookup path with
    | none => .error ⟨404, "File not found"⟩
    | some (.dir _ _) => .error ⟨400, "Cannot read directory"⟩
    | some (.file bytes _) =>
      let encoding := effEncoding reqEncoding
      match codec encoding bytes with
      | .ok content => .ok ⟨content, encoding⟩
      | .error .unicodeDecodeError => .ok ⟨b64encode bytes, "base64"⟩
      | .error .lookupError => .error ⟨500, "unknown encoding: " ++ encoding⟩

/-! ## Canonical depth-first enumeration of a subtree

Reference enumeration used to state completeness of the recursive walk:
one record per descendant of the listed directory, parent before
children, each tree position exactly once, and none for the listed
directory itself. -/

/-- The record the server is expected to produce for child n of the
directory at p holding node c. -/
def specEntry (p n : String) : FSNode → FileInfo
  | .dir m _ => ⟨n, pathJoin p n, true, none, some m⟩
  | .file bs m => ⟨n, pathJoin p n, false, some bs.length, some m⟩

mutual

/-- All descendant records of a node, depth first, parent before its
own descendants; empty for a file node. -/
def specEntries (p : String) : FSNode → List FileInfo
  | .file _ _ => []
  | .dir _ entries => specChildren p entries

/-- Descendant records contributed by a child list: each child's own
record followed by its descendants. -/
def specChildren (p : String) : List (String × FSNode) → List FileInfo
  | [] => []
  | (n, c) :: rest =>
    specEntry p n c :: (specEntries (pathJoin p n) c ++ specChildren p rest)

end

mutual

/-- Number of files in the subtree below a node (a file node counts
itself). -/
def numFiles : FSNode → Nat
  | .file _ _ => 1
  | .dir _ entries => numFilesL entries

/-- Number of files below a child list. -/
def numFilesL : List (String × FSNode) → Nat
  | [] => 0
  | (_, c) :: rest => numFiles c + numFilesL rest

end

mutual

/-- Number of directories strictly below a node (the node itself is
not counted). -/
def numDirs : FSNode → Nat
  | .file _ _ => 0
  | .dir _ entries => numDirsL entries

/-- Number of directories at or below a child list (each directory
child counts itself and its own subdirectories). -/
def numDirsL : List (String × FSNode) → Nat
  | [] => 0
  | (_, c) :: rest => (if c.isDir then 1 else 0) + numDirs c + numDirsL rest

end

/-! ## base64 round trip -/

/-- The decoder value of an encoder character, on six-bit values. -/
theorem b64Value_b64Char_fin : ∀ n : Fin 64, b64Value (b64Char n.val) = some n.val := by
  decide

/-- Encoder characters are never the pad character. -/
theorem b64Char_ne_pad_fin : ∀ n : Fin 64, ¬ b64Char n.val = '=' := by
  decide

/-- The decoder value of an encoder character. -/
theorem b64Value_b64Char (n : Nat) (h : n < 64) : b64Value (b64Char n) = some n :=
  b64Value_b64Char_fin ⟨n, h⟩

/-- Encoder characters are never the pad character. -/
theorem b64Char_ne_pad (n : Nat) (h : n < 64) : ¬ b64Char n = '=' :=
  b64Char_ne_pad_fin ⟨n, h⟩

/-- Decoding an encoded byte list gives back exactly the bytes. -/
theorem b64_roundtrip_chars : ∀ bs : List Nat, (∀ b ∈ bs, b < 256) →
    b64decodeChars (b64encodeChars bs) = some bs
  | [], _ => rfl
  | [a], h => by
    have ha : a < 256 := h a (by simp)
    have hv1 := b64Value_b64Char (a / 4) (by omega)
    have hv2 := b64Value_b64Char (a % 4 * 16) (by omega)
    simp [b64encodeChars, b64decodeChars, hv1, hv2]
    omega
  | [a, b], h => by
    have ha : a < 256 := h a (by simp)
    have hb : b < 256 := h b (by simp)
    have hv1 := b64Value_b64Char (a / 4) (by omega)
    have hv2 := b64Value_b64Char (a % 4 * 16 + b / 16) (by omega)
    have hv3 := b64Value_b64Char (b % 16 * 4) (by omega)
    have hn3 := b64Char_ne_pad (b % 16 * 4) (by omega)
    simp [b64encodeChars, b64decodeChars, hv1, hv2, hv3, hn3]
    omega
  | a :: b :: c :: rest, h => by
    have ha : a < 256 := h a (by simp)
    have hb : b < 256 := h b (by simp)
    have hc : c < 256 := h c (by simp)
    have ih := b64_roundtrip_chars rest (fun x hx => h x (by simp [hx]))
    have hv1 := b64Value_b64Char (a / 4) (by omega)
    have hv2 := b64Value_b64Char (a % 4 * 16 + b / 16) (by omega)
    have hv3 := b64Value_b64Char (b % 16 * 4 + c / 64) (by omega)
    have hv4 := b64Value_b64Char (c % 64) (by omega)
    have hn3 := b64Char_ne_pad (b % 16 * 4 + c / 64) (by omega)
    have hn4 := b64Char_ne_pad (c % 64) (by omega)
    simp [b64encodeChars, b64decodeChars, hv1, hv2, hv3, hv4, hn3, hn4, ih]
    omega

/-- Decoding an encoded byte string gives back exactly the bytes. -/
theorem b64_roundtrip (bs : List Nat) (h : ∀ b ∈ bs, b < 256) :
    b64decodeStr (b64encode bs) = some bs := by
  unfold b64decodeStr b64encode
  rw [show (String.mk (b64encodeChars bs)).toList = b64encodeChars bs from rfl]
  exact b64_roundtrip_chars bs h

/-! ## Completeness of the recursive walk -/

/-- Joining a path with a child name grows the string by at least the
separator. -/
theorem pathJoin_length (p n : String) :
    (pathJoin p n).length = p.length + 1 + n.length := by
  have h1 : ("/" : String).length = 1 := rfl
  simp only [pathJoin, String.length_append, h1]

/-- Pulling an element out of the middle of a three-part append
preserves permutation with the consed target. -/
theorem perm_pull_mid {α : Type} (A B C S : List α) (x : α)
    (ih : (A ++ B ++ C).Perm S) :
    (A ++ (x :: B) ++ C).Perm (x :: S) := by
  have h0 : A ++ (x :: B) ++ C = A ++ x :: (B ++ C) := by simp
  rw [h0]
  exact List.Perm.trans List.perm_middle
    (List.Perm.cons x (by simpa [List.append_assoc] using ih))

/-- Moving a block from third position to the front preserves
permutation with the appended targets. -/
theorem perm_shuffle {α : Type} (A B X C S S' : List α)
    (ih : (A ++ B ++ C).Perm S) (ihc : X.Perm S') :
    (A ++ B ++ (X ++ C)).Perm (S' ++ S) := by
  have h0 : A ++ B ++ (X ++ C) = ((A ++ B) ++ X) ++ C := by simp [List.append_assoc]
  rw [h0]
  have h1 : (((A ++ B) ++ X) ++ C).Perm ((X ++ (A ++ B)) ++ C) :=
    List.Perm.append_right C List.perm_append_comm
  refine h1.trans ?_
  rw [List.append_assoc X (A ++ B) C]
  exact List.Perm.append ihc ih

/-- The records produced by the recursive walk of a child list are a
permutation of the canonical depth-first enumeration. -/
theorem walk_perm : ∀ (p : String) (l : List (String × FSNode)),
    (walkDirInfos p l ++ walkFileInfos p l ++ walkChildren p l).Perm (specChildren p l)
  | _, [] => by simp [walkDirInfos, walkFileInfos, walkChildren, specChildren]
  | p, (n, .file bs m) :: rest => by
    have ih := walk_perm p rest
    have hd : walkDirInfos p ((n, FSNode.file bs m) :: rest) = walkDirInfos p rest := by
      simp [walkDirInfos]
    have hf : walkFileInfos p ((n, FSNode.file bs m) :: rest)
        = specEntry p n (FSNode.file bs m) :: walkFileInfos p rest := by
      simp [walkFileInfos, specEntry]
    have hw : walkChildren p ((n, FSNode.file bs m) :: rest) = walkChildren p rest := by
      simp [walkChildren, list_files_rec]
    have hs : specChildren p ((n, FSNode.file bs m) :: rest)
        = specEntry p n (FSNode.file bs m) :: specChildren p rest := by
      simp [specChildren, specEntries]
    rw [hd, hf, hw, hs]
    exact perm_pull_mid _ _ _ _ _ ih
  | p, (n, .dir m es) :: rest => by
    have ih := walk_perm p rest
    have ihc := walk_perm (pathJoin p n) es
    have hd : walkDirInfos p ((n, FSNode.dir m es) :: rest)
        = specEntry p n (FSNode.dir m es) :: walkDirInfos p rest := by
      simp [walkDirInfos, specEntry]
    have hf : walkFileInfos p ((n, FSNode.dir m es) :: rest) = walkFileInfos p rest := by
      simp [walkFileInfos]
    have hw : walkChildren p ((n, FSNode.dir m es) :: rest)
        = (walkDirInfos (pathJoin p n) es ++ walkFileInfos (pathJoin p n) es ++
            walkChildren (pathJoin p n) es) ++ walkChildren p rest := by
      simp [walkChildren, list_files_rec]
    have hs : specChildren p ((n, FSNode.dir m es) :: rest)
        = specEntry p n (FSNode.dir m es) ::
            (specChildren (pathJoin p n) es ++ specChildren p rest) := by
      simp [specChildren, specEntries]
    rw [hd, hf, hw, hs]
    have h1 : (specEntry p n (FSNode.dir m es) :: walkDirInfos p rest) ++ walkFileInfos p rest ++
        ((walkDirInfos (pathJoin p n) es ++ walkFileInfos (pathJoin p n) es ++
          walkChildren (pathJoin p n) es) ++ walkChildren p rest)
        = specEntry p n (FSNode.dir m es) :: (walkDirInfos p rest ++ walkFileInfos p rest ++
          ((walkDirInfos (pathJoin p n) es ++ walkFileInfos (pathJoin p n) es ++
            walkChildren (pathJoin p n) es) ++ walkChildren p rest)) := by
      simp [List.append_assoc]
    rw [h1]
    exact List.Perm.cons _ (perm_shuffle _ _ _ _ _ _ ih ihc)

/-- The recursive walk of a directory node is a permutation of the
canonical enumeration of its subtree. -/
theorem list_files_rec_perm (p : String) (t : FSNode) :
    (list_files_rec p t).Perm (specEntries p t) := by
  cases t with
  | file bs m => simp [list_files_rec, specEntries]
  | dir m entries =>
    have h : list_files_rec p (FSNode.dir m entries)
        = walkDirInfos p entries ++ walkFileInfos p entries ++ walkChildren p entries := by
      simp [list_files_rec]
    rw [h]
    have h2 : specEntries p (FSNode.dir m entries) = specChildren p entries := by
      simp [specEntries]
    rw [h2]
    exact walk_perm p entries

/-- The canonical enumeration has one record per descendant file and
per descendant directory. -/
theorem specChildren_length : ∀ (p : String) (l : List (String × FSNode)),
    (specChildren p l).length = numFilesL l + numDirsL l
  | _, [] => rfl
  | p, (n, .file bs m) :: rest => by
    have ih := specChildren_length p rest
    simp [specChildren, specEntries, numFilesL, numDirsL, numFiles, numDirs,
      FSNode.isDir, ih]
    omega
  | p, (n, .dir m es) :: rest => by
    have ih := specChildren_length p rest
    have ihc := specChildren_length (pathJoin p n) es
    simp [specChildren, specEntries, numFilesL, numDirsL, numFiles, numDirs,
      FSNode.isDir, ih, ihc]
    omega

/-- Every record of the canonical enumeration lies strictly below the
enumerated path, so none of them is the path itself. -/
theorem specChildren_path_long : ∀ (p : String) (l : List (String × FSNode)),
    ∀ e ∈ specChildren p l, p.length < e.path.length
  | _, [] => by simp [specChildren]
  | p, (n, c) :: rest => by
    have ih := specChildren_path_long p rest
    intro e he
    cases c with
    | file bs m =>
      simp only [specChildren, specEntries, List.nil_append, List.mem_cons] at he
      rcases he with he | he
      · subst he
        simp only [specEntry]
        rw [pathJoin_length]
        omega
      · exact ih e he
    | dir m es =>
      have ihc := specChildren_path_long (pathJoin p n) es
      simp only [specChildren, specEntries, List.mem_cons, List.mem_append] at he
      rcases he with he | he | he
      · subst he
        simp only [specEntry]
        rw [pathJoin_length]
        omega
      · have h1 := ihc e he
        have h2 := pathJoin_length p n
        omega
      · exact ih e he

/-- In the canonical enumeration, the size field is present exactly on
the file records. -/
theorem specChildren_size_iff : ∀ (p : String) (l : List (String × FSNode)),
    ∀ e ∈ specChildren p l, e.size.isSome = true ↔ e.is_dir = false
  | _, [] => by simp [specChildren]
  | p, (n, c) :: rest => by
    have ih := specChildren_size_iff p rest
    intro e he
    cases c with
    | file bs m =>
      simp only [specChildren, specEntries, List.nil_append, List.mem_cons] at he
      rcases he with he | he
      · subst he
        simp [specEntry]
      · exact ih e he
    | dir m es =>
      have ihc := specChildren_size_iff (pathJoin p n) es
      simp only [specChildren, specEntries, List.mem_cons, List.mem_append] at he
      rcases he with he | he | he
      · subst he
        simp [specEntry]
      · exact ihc e he
      · exact ih e he

/-- In the direct listing, the size field is present exactly on the
file records. -/
theorem nonrec_size_iff (p : String) (l : List (String × FSNode)) :
    ∀ e ∈ list_files_nonrec p l, e.size.isSome = true ↔ e.is_dir = false := by
  intro e he
  simp only [list_files_nonrec, List.mem_map] at he
  obtain ⟨⟨n, c⟩, hmem, rfl⟩ := he
  cases c <;> simp [FSNode.isDir]

example : safe_path (some "/data") "/" "/etc/passwd" =
    .error ⟨403, "Access to paths outside of /data is not allowed"⟩ := by decide
example : safe_path none "/home" "x/../y" = .ok "/home/y" := by decide

/-! ## Claim theorems -/

/-- C1: the claim states that safe_path rejects every path whose
canonical form is not a segment-wise descendant of the configured root,
in particular the sibling /data2/secret of root /data.  The code
instead compares canonical paths with a raw character-prefix test
(abs_path.startswith(base_path)), so with root /data the sibling path
/data2/secret passes the check and its content is served by read: the
code contradicts the segment-wise containment the specification
requires. -/
theorem safe_path_admits_sibling :
    safe_path (some "/data") "/" "/data2/secret" = .ok "/data2/secret" ∧
    read_file utf8Codec (some "/data") "/"
      (fun q => if q = "/data2/secret" then
        some (FSNode.file [116, 111, 112, 32, 115, 101, 99, 114, 101, 116] 0) else none)
      "/data2/secret" none = .ok ⟨"top secret", "utf-8"⟩ := by
  constructor
  · decide
  · decide

/-- C2: with no configured secret every request is allowed; with a
configured non-empty secret a request is allowed exactly when the
credential header equals the secret, and is otherwise rejected with a
403. -/
theorem get_api_key_gate (s : String) (h : Option String) (hs : s ≠ "") :
    get_api_key none h = .ok none ∧
    ((∃ k, get_api_key (some s) h = .ok k) ↔ h = some s) ∧
    (h ≠ some s → get_api_key (some s) h = .error ⟨403, "Invalid API key"⟩) := by
  have hse : s.isEmpty = false := by
    cases hh : s.isEmpty
    · rfl
    · exact absurd ((String.isEmpty_iff s).mp hh) hs
  cases h with
  | none => simp [get_api_key, pyTruthy, hse]
  | some hv =>
    by_cases hcase : hv = s
    · subst hcase
      simp [get_api_key, pyTruthy, hse]
    · simp [get_api_key, pyTruthy, hse, hcase]

/-- Witness for C2 at secret "sec" and header "x". -/
theorem get_api_key_gate_witness :
    ("sec" : String) ≠ "" ∧
    (get_api_key none (some "x") = .ok none ∧
     ((∃ k, get_api_key (some "sec") (some "x") = .ok k) ↔
        (some "x" : Option String) = some "sec") ∧
     ((some "x" : Option String) ≠ some "sec" →
        get_api_key (some "sec") (some "x") = .error ⟨403, "Invalid API key"⟩)) :=
  ⟨by decide, get_api_key_gate "sec" (some "x") (by decide)⟩

/-- C3: a recursive list of a contained existing directory succeeds and
returns one record per descendant file and per descendant directory,
each exactly once (the result is a permutation of the canonical
depth-first enumeration of the subtree, which also fixes is_dir on
every record), numFiles + numDirs records in total, and no record for
the listed directory itself. -/
theorem list_recursive_complete (basePath : Option String) (cwd rp p : String)
    (lookup : String → Option FSNode) (m : Nat) (entries : List (String × FSNode))
    (hsp : safe_path basePath cwd rp = .ok p)
    (hlk : lookup p = some (.dir m entries)) :
    list_files basePath cwd lookup rp true = .ok ⟨list_files_rec p (.dir m entries)⟩ ∧
    (list_files_rec p (.dir m entries)).Perm (specEntries p (.dir m entries)) ∧
    (list_files_rec p (.dir m entries)).length
      = numFiles (.dir m entries) + numDirs (.dir m entries) ∧
    (∀ e ∈ list_files_rec p (.dir m entries), e.path ≠ p) := by
  refine ⟨?_, list_files_rec_perm p (.dir m entries), ?_, ?_⟩
  · simp [list_files, hsp, hlk]
  · have h1 := (list_files_rec_perm p (.dir m entries)).length_eq
    rw [h1]
    have h2 : specEntries p (FSNode.dir m entries) = specChildren p entries := by
      simp [specEntries]
    rw [h2, specChildren_length]
    simp [numFiles, numDirs]
  · intro e he
    have hmem := (list_files_rec_perm p (.dir m entries)).mem_iff.mp he
    have h2 : specEntries p (FSNode.dir m entries) = specChildren p entries := by
      simp [specEntries]
    rw [h2] at hmem
    have hlen := specChildren_path_long p entries e hmem
    intro hc
    rw [hc] at hlen
    omega

/-- Witness for C3 on a tree with two files and one subdirectory. -/
theorem list_recursive_complete_witness :
    safe_path none "/" "/r" = .ok "/r" ∧
    (fun q => if q = "/r" then
        some (FSNode.dir 5 [("a", FSNode.file [1, 2] 7), ("d", FSNode.dir 8 [("b", FSNode.file [] 9)])])
      else none) "/r"
      = some (FSNode.dir 5 [("a", FSNode.file [1, 2] 7), ("d", FSNode.dir 8 [("b", FSNode.file [] 9)])]) ∧
    (list_files none "/"
      (fun q => if q = "/r" then
        some (FSNode.dir 5 [("a", FSNode.file [1, 2] 7), ("d", FSNode.dir 8 [("b", FSNode.file [] 9)])])
      else none) "/r" true
      = .ok ⟨list_files_rec "/r"
          (.dir 5 [("a", FSNode.file [1, 2] 7), ("d", FSNode.dir 8 [("b", FSNode.file [] 9)])])⟩ ∧
    (list_files_rec "/r"
        (.dir 5 [("a", FSNode.file [1, 2] 7), ("d", FSNode.dir 8 [("b", FSNode.file [] 9)])])).Perm
      (specEntries "/r"
        (.dir 5 [("a", FSNode.file [1, 2] 7), ("d", FSNode.dir 8 [("b", FSNode.file [] 9)])])) ∧
    (list_files_rec "/r"
        (.dir 5 [("a", FSNode.file [1, 2] 7), ("d", FSNode.dir 8 [("b", FSNode.file [] 9)])])).length
      = numFiles (.dir 5 [("a", FSNode.file [1, 2] 7), ("d", FSNode.dir 8 [("b", FSNode.file [] 9)])])
        + numDirs (.dir 5 [("a", FSNode.file [1, 2] 7), ("d", FSNode.dir 8 [("b", FSNode.file [] 9)])]) ∧
    (∀ e ∈ list_files_rec "/r"
        (.dir 5 [("a", FSNode.file [1, 2] 7), ("d", FSNode.dir 8 [("b", FSNode.file [] 9)])]),
      e.path ≠ "/r")) :=
  ⟨rfl, rfl,
    list_recursive_complete none "/" "/r" "/r" _ 5
      [("a", FSNode.file [1, 2] 7), ("d", FSNode.dir 8 [("b", FSNode.file [] 9)])] rfl rfl⟩

/-- C4: when decoding raises UnicodeDecodeError the read endpoint
returns the base64 encoding of the complete original byte stream, and
base64-decoding the returned content yields exactly those bytes. -/
theorem read_binary_fallback (codec : String → List Nat → Except DecodeErr String)
    (basePath : Option String) (cwd rp p : String) (lookup : String → Option FSNode)
    (encOpt : Option String) (bytes : List Nat) (mt : Nat)
    (hsp : safe_path basePath cwd rp = .ok p)
    (hlk : lookup p = some (.file bytes mt))
    (hdec : codec (effEncoding encOpt) bytes = .error .unicodeDecodeError)
    (hbytes : ∀ b ∈ bytes, b < 256) :
    read_file codec basePath cwd lookup rp encOpt = .ok ⟨b64encode bytes, "base64"⟩ ∧
    b64decodeStr (b64encode bytes) = some bytes := by
  constructor
  · simp [read_file, hsp, hlk, hdec]
  · exact b64_roundtrip bytes hbytes

/-- Witness for C4 at the bytes FF 00 10, whose base64 is "/wAQ". -/
theorem read_binary_fallback_witness :
    read_file utf8Codec none "/"
      (fun q => if q = "/b" then some (FSNode.file [255, 0, 16] 3) else none) "/b" none
      = .ok ⟨b64encode [255, 0, 16], "base64"⟩ ∧
    b64decodeStr (b64encode [255, 0, 16]) = some [255, 0, 16] ∧
    b64encode [255, 0, 16] = "/wAQ" :=
  have h := read_binary_fallback utf8Codec none "/" "/b" "/b"
    (fun q => if q = "/b" then some (FSNode.file [255, 0, 16] 3) else none)
    none [255, 0, 16] 3 rfl rfl (by decide) (by decide)
  ⟨h.1, h.2, by decide⟩

/-- C5 counterexample: reading a UTF-8 file containing "hello\n"
returns the encoding label "utf-8", not the label "text" the claim
requires. -/
theorem read_text_label_counterexample :
    read_file utf8Codec none "/"
      (fun q => if q = "/h" then some (FSNode.file [104, 101, 108, 108, 111, 10] 3) else none)
      "/h" none = .ok ⟨"hello\n", "utf-8"⟩ ∧
    read_file utf8Codec none "/"
      (fun q => if q = "/h" then some (FSNode.file [104, 101, 108, 108, 111, 10] 3) else none)
      "/h" none ≠ .ok ⟨"hello\n", "text"⟩ := by
  constructor
  · decide
  · decide

/-- C5 amended: when the bytes decode successfully under the requested
encoding, read returns the decoded text with the requested encoding's
name (default "utf-8") as the label. -/
theorem read_text_success (codec : String → List Nat → Except DecodeErr String)
    (basePath : Option String) (cwd rp p : String) (lookup : String → Option FSNode)
    (encOpt : Option String) (bytes : List Nat) (mt : Nat) (text : String)
    (hsp : safe_path basePath cwd rp = .ok p)
    (hlk : lookup p = some (.file bytes mt))
    (hdec : codec (effEncoding encOpt) bytes = .ok text) :
    read_file codec basePath cwd lookup rp encOpt = .ok ⟨text, effEncoding encOpt⟩ := by
  simp [read_file, hsp, hlk, hdec]

/-- Witness for the amended C5 on a "hello\n" file. -/
theorem read_text_success_witness :
    read_file utf8Codec none "/"
      (fun q => if q = "/h" then some (FSNode.file [104, 101, 108, 108, 111, 10] 3) else none)
      "/h" none = .ok ⟨"hello\n", "utf-8"⟩ :=
  read_text_success utf8Codec none "/" "/h" "/h"
    (fun q => if q = "/h" then some (FSNode.file [104, 101, 108, 108, 111, 10] 3) else none)
    none [104, 101, 108, 108, 111, 10] 3 "hello\n" rfl rfl (by decide)

/-- C6: with no configured root, safe_path returns the canonical
absolute form of any path without a containment check, and list
proceeds on any existing path. -/
theorem safe_path_no_root (cwd p : String) (lookup : String → Option FSNode)
    (t : FSNode) :
    safe_path none cwd p = .ok (abspath cwd p) ∧
    (lookup (abspath cwd p) = some t →
      list_files none cwd lookup p true = .ok ⟨list_files_rec (abspath cwd p) t⟩) := by
  refine ⟨rfl, ?_⟩
  intro hl
  simp [list_files, safe_path, hl]

/-- Witness for C6 at the path /etc. -/
theorem safe_path_no_root_witness :
    safe_path none "/" "/etc" = .ok "/etc" ∧
    list_files none "/"
      (fun q => if q = "/etc" then some (FSNode.dir 1 [("a", FSNode.file [] 2)]) else none)
      "/etc" true
      = .ok ⟨list_files_rec "/etc" (FSNode.dir 1 [("a", FSNode.file [] 2)])⟩ :=
  have h := safe_path_no_root "/" "/etc"
    (fun q => if q = "/etc" then some (FSNode.dir 1 [("a", FSNode.file [] 2)]) else none)
    (FSNode.dir 1 [("a", FSNode.file [] 2)])
  ⟨h.1, h.2 rfl⟩

/-- C7: read of a contained path that does not exist fails with 404,
and read of a contained path that is a directory fails with 400; in
both cases the error branch carries no content. -/
theorem read_notfound_and_directory (codec : String → List Nat → Except DecodeErr String)
    (basePath : Option String) (cwd rp p : String) (lookup : String → Option FSNode)
    (encOpt : Option String)
    (hsp : safe_path basePath cwd rp = .ok p) :
    (lookup p = none →
      read_file codec basePath cwd lookup rp encOpt = .error ⟨404, "File not found"⟩) ∧
    (∀ m entries, lookup p = some (.dir m entries) →
      read_file codec basePath cwd lookup rp encOpt = .error ⟨400, "Cannot read directory"⟩) := by
  constructor
  · intro hl
    simp [read_file, hsp, hl]
  · intro m entries hl
    simp [read_file, hsp, hl]

/-- Witness for C7 on a missing path and on a directory path. -/
theorem read_notfound_and_directory_witness :
    read_file utf8Codec none "/" (fun _ => none) "/missing" none
      = .error ⟨404, "File not found"⟩ ∧
    read_file utf8Codec none "/" (fun q => if q = "/d" then some (FSNode.dir 0 []) else none)
      "/d" none = .error ⟨400, "Cannot read directory"⟩ :=
  ⟨(read_notfound_and_directory utf8Codec none "/" "/missing" "/missing"
      (fun _ => none) none rfl).1 rfl,
   (read_notfound_and_directory utf8Codec none "/" "/d" "/d"
      (fun q => if q = "/d" then some (FSNode.dir 0 []) else none) none rfl).2 0 [] rfl⟩

/-- C8: every record returned by the list endpoint, recursive or not,
has its size present exactly when it is not a directory. -/
theorem list_size_invariant (basePath : Option String) (cwd rp : String)
    (lookup : String → Option FSNode) (recursive : Bool) (resp : FileListResponse)
    (h : list_files basePath cwd lookup rp recursive = .ok resp) :
    ∀ e ∈ resp.files, e.size.isSome = true ↔ e.is_dir = false := by
  cases hsp : safe_path basePath cwd rp with
  | error err => simp only [list_files, hsp] at h; cases h
  | ok p =>
    simp only [list_files, hsp] at h
    cases hlk : lookup p with
    | none => simp only [hlk] at h; cases h
    | some t =>
      simp only [hlk] at h
      cases recursive with
      | true =>
        simp only [if_true, Except.ok.injEq] at h
        subst h
        intro e he
        cases t with
        | file bs m => simp [list_files_rec] at he
        | dir m entries =>
          have hmem := (list_files_rec_perm p (.dir m entries)).mem_iff.mp he
          have h2 : specEntries p (FSNode.dir m entries) = specChildren p entries := by
            simp [specEntries]
          rw [h2] at hmem
          exact specChildren_size_iff p entries e hmem
      | false =>
        cases t with
        | file bs m => simp at h
        | dir m entries =>
          simp only [Bool.false_eq_true, if_false, Except.ok.injEq] at h
          subst h
          exact nonrec_size_iff p entries

/-- Witness for C8 on a non-recursive listing with one file and one
directory. -/
theorem list_size_invariant_witness :
    list_files none "/"
      (fun q => if q = "/r" then
        some (FSNode.dir 5 [("a", FSNode.file [1, 2] 7), ("d", FSNode.dir 8 [])]) else none)
      "/r" false
      = .ok ⟨[⟨"a", "/r/a", false, some 2, some 7⟩, ⟨"d", "/r/d", true, none, some 8⟩]⟩ ∧
    (∀ e ∈ (FileListResponse.mk
        [⟨"a", "/r/a", false, some 2, some 7⟩, ⟨"d", "/r/d", true, none, some 8⟩]).files,
      e.size.isSome = true ↔ e.is_dir = false) :=
  ⟨by decide,
   list_size_invariant none "/" "/r"
     (fun q => if q = "/r" then
       some (FSNode.dir 5 [("a", FSNode.file [1, 2] 7), ("d", FSNode.dir 8 [])]) else none)
     false
     ⟨[⟨"a", "/r/a", false, some 2, some 7⟩, ⟨"d", "/r/d", true, none, some 8⟩]⟩
     (by decide)⟩

/-- C9: an empty configured secret is falsy in Python, so get_api_key
skips authentication and allows every request, whatever the header. -/
theorem get_api_key_empty_secret (h : Option String) :
    get_api_key (some "") h = .ok none := rfl

/-- C10: an unrecognized encoding name makes the text-mode open raise
LookupError, which the inner handler does not catch, so the request
fails with a 500 rather than a 400 or the base64 fallback. -/
theorem read_unknown_encoding (codec : String → List Nat → Except DecodeErr String)
    (basePath : Option String) (cwd rp p : String) (lookup : String → Option FSNode)
    (encOpt : Option String) (bytes : List Nat) (mt : Nat)
    (hsp : safe_path basePath cwd rp = .ok p)
    (hlk : lookup p = some (.file bytes mt))
    (hdec : codec (effEncoding encOpt) bytes = .error .lookupError) :
    read_file codec basePath cwd lookup rp encOpt
      = .error ⟨500, "unknown encoding: " ++ effEncoding encOpt⟩ := by
  simp [read_file, hsp, hlk, hdec]

/-- Witness for C10 at the encoding name "bogus". -/
theorem read_unknown_encoding_witness :
    read_file utf8Codec none "/"
      (fun q => if q = "/f" then some (FSNode.file [104] 3) else none) "/f" (some "bogus")
      = .error ⟨500, "unknown encoding: bogus"⟩ :=
  read_unknown_encoding utf8Codec none "/" "/f" "/f"
    (fun q => if q = "/f" then some (FSNode.file [104] 3) else none)
    (some "bogus") [104] 3 rfl rfl (by decide)
